import Mathlib

/-!
Verification development for `src/entwine/types/vector-point-table.hpp`
(entwine point-cloud table core).

The C++ classes are shallowly embedded as follows.

* `MemBlock` (the bump-pointer block arena): a block is identified by its
  index in `m_blocks`, and a slot address `char*` is modelled as the pair
  `(block index, byte offset into that block)`.  Since every block is a
  separately owned heap allocation, two C++ addresses are equal iff their
  `(block, offset)` pairs are equal, so this model preserves address
  identity.  The bump cursor `m_pos`/`m_end` always points into the most
  recently allocated block, so pointer equality `m_pos == m_end` is offset
  equality (with `0 = 0` standing for the initial `nullptr == nullptr`).
* `BlockPointTable`: holds the concatenated `refs` lists and the
  monotonically increasing `m_index` cursor.
* `VectorPointTable`: the byte buffer `m_data` is a `List Nat` (one entry
  per byte), `m_size` and `m_skips` are carried verbatim.  Operations that
  throw (`at`, the adopting constructor, `setSkip` via `vector::at`) return
  `Except`/`Option`; all other operations are total, exactly as in C++.
* The skip-aware `Iterator` is modelled by its `m_index` field (the table
  reference is passed explicitly); its scan loops are written with an
  explicit fuel equal to `size - index`, which is exactly the number of
  remaining loop iterations, so the fuel never runs out on the loop's
  reachable states.
-/

namespace Entwine

/-! ### MemBlock (block arena) -/

/-- State of `MemBlock`.  `numBlocks` is `m_blocks.size()`; `posOfs` and
`endOfs` are the offsets of `m_pos` and `m_end` inside the most recently
allocated block (`0` for the initial null pointers); `refs` is `m_refs`,
each address as a `(block index, byte offset)` pair. -/
structure MemBlock where
  pointSize : Nat
  pointsPerBlock : Nat
  numBlocks : Nat
  posOfs : Nat
  endOfs : Nat
  refs : List (Nat × Nat)
deriving DecidableEq, Repr

/-- The `MemBlock(pointSize, pointsPerBlock)` constructor (the `reserve`
calls only pre-allocate capacity and have no observable effect). -/
def mkMemBlock (pointSize pointsPerBlock : Nat) : MemBlock :=
  { pointSize := pointSize
    pointsPerBlock := pointsPerBlock
    numBlocks := 0
    posOfs := 0
    endOfs := 0
    refs := [] }

/-- `m_bytesPerBlock = m_pointsPerBlock * m_pointSize`. -/
def MemBlock.bytesPerBlock (m : MemBlock) : Nat :=
  m.pointsPerBlock * m.pointSize

/-- `MemBlock::next()`: if `m_pos == m_end` allocate a fresh block and point
the cursor at it; then hand out the slot at the cursor, record it in
`m_refs`, and bump the cursor by one point. Returns the issued address
together with the updated arena. -/
def MemBlock.next (m : MemBlock) : (Nat × Nat) × MemBlock :=
  let m1 :=
    if m.posOfs = m.endOfs then
      { m with
        numBlocks := m.numBlocks + 1
        posOfs := 0
        endOfs := m.bytesPerBlock }
    else m
  let result : Nat × Nat := (m1.numBlocks - 1, m1.posOfs)
  (result,
    { m1 with
      refs := m1.refs ++ [result]
      posOfs := m1.posOfs + m1.pointSize })

/-- `MemBlock::size()` is `m_refs.size()`. -/
def MemBlock.size (m : MemBlock) : Nat := m.refs.length

/-- `MemBlock::clear()`. -/
def MemBlock.clear (m : MemBlock) : MemBlock :=
  { m with numBlocks := 0, posOfs := 0, endOfs := 0, refs := [] }

/-- Iterated `next()`: the arena after `n` calls. -/
def MemBlock.run (m : MemBlock) : Nat → MemBlock
  | 0 => m
  | n + 1 => (MemBlock.run m n).next.2

/-- Closed form of the address issued by the `j`-th call (0-based) on a
fresh arena with block capacity `k` and point size `ps`. -/
def blockAddr (k ps j : Nat) : Nat × Nat := (j / k, j % k * ps)

/-- Closed form of the arena state after `n` calls to `next()` on a fresh
arena (valid for `ps ≥ 1`, `k ≥ 1`). -/
def blockStateAfter (ps k n : Nat) : MemBlock :=
  if n = 0 then mkMemBlock ps k
  else
    { pointSize := ps
      pointsPerBlock := k
      numBlocks := (n - 1) / k + 1
      posOfs := ((n - 1) % k + 1) * ps
      endOfs := k * ps
      refs := (List.range n).map (blockAddr k ps) }

/-! ### BlockPointTable (write adapter table) -/

/-- State of `BlockPointTable`: the concatenated `m_refs` and the
`m_index` write cursor. -/
structure BlockPointTable where
  refs : List (Nat × Nat)
  index : Nat
deriving DecidableEq, Repr

/-- The `BlockPointTable(schema, a, b)` constructor: copy `a.refs()` then
`b.refs()` into the local `m_refs`. -/
def mkBlockPointTable (a b : MemBlock) : BlockPointTable :=
  { refs := a.refs ++ b.refs, index := 0 }

/-- `BlockPointTable::getPoint(index)`: `m_refs[index]` (unchecked in C++;
`none` models the out-of-range case that C++ leaves undefined). -/
def BlockPointTable.getPoint (t : BlockPointTable) (index : Nat) :
    Option (Nat × Nat) :=
  t.refs[index]?

/-- `BlockPointTable::addPoint()`: return `m_index++`. -/
def BlockPointTable.addPoint (t : BlockPointTable) : Nat × BlockPointTable :=
  (t.index, { t with index := t.index + 1 })

/-- `BlockPointTable::size()`. -/
def BlockPointTable.size (t : BlockPointTable) : Nat := t.refs.length

/-! ### VectorPointTable (streaming table) -/

/-- State of `VectorPointTable`: `m_pointSize`, the byte buffer `m_data`
(one `Nat` per byte), the logical `m_size`, and the skip mask `m_skips`.
The `m_f` process callback carries no data relevant to any claim and is
omitted. -/
structure VectorPointTable where
  pointSize : Nat
  data : List Nat
  size : Nat
  skips : List Bool
deriving DecidableEq, Repr

/-- `std::vector::resize(n, v)`: keep the first `n` elements, appending
copies of `v` if the vector was shorter than `n`. -/
def vecResize (l : List α) (n : Nat) (v : α) : List α :=
  l.take n ++ List.replicate (n - l.length) v

/-- The capacity-form constructor `VectorPointTable(schema, np)`:
a zero-filled buffer of `np * pointSize` bytes, size `np`, all-false
skip mask. -/
def mkTableCapacity (pointSize np : Nat) : VectorPointTable :=
  { pointSize := pointSize
    data := List.replicate (np * pointSize) 0
    size := np
    skips := List.replicate np false }

/-- The adopting constructor `VectorPointTable(schema, data)`: take the
buffer, derive `m_size = m_data.size() / m_pointSize`, build the mask, and
throw `"Invalid VectorPointTable data"` when the byte length is not a
multiple of the point size. -/
def mkTableAdopt (pointSize : Nat) (data : List Nat) :
    Except String VectorPointTable :=
  if data.length % pointSize ≠ 0 then
    Except.error "Invalid VectorPointTable data"
  else
    Except.ok
      { pointSize := pointSize
        data := data
        size := data.length / pointSize
        skips := List.replicate (data.length / pointSize) false }

/-- `VectorPointTable::resize(np)`: `m_data.resize(np * pointSize, 0)`,
`m_size = np`, `m_skips.resize(m_size, false)`. -/
def VectorPointTable.resize (t : VectorPointTable) (np : Nat) :
    VectorPointTable :=
  { t with
    data := vecResize t.data (np * t.pointSize) 0
    size := np
    skips := vecResize t.skips np false }

/-- `VectorPointTable::assign(data)`: move the buffer in, recompute
`m_size = m_data.size() / m_pointSize` (truncating division, no
divisibility check in the C++), and `m_skips.resize(m_size, false)`. -/
def VectorPointTable.assign (t : VectorPointTable) (data : List Nat) :
    VectorPointTable :=
  { t with
    data := data
    size := data.length / t.pointSize
    skips := vecResize t.skips (data.length / t.pointSize) false }

/-- `VectorPointTable::capacity()`: `m_data.size() / m_pointSize`. -/
def VectorPointTable.capacity (t : VectorPointTable) : Nat :=
  t.data.length / t.pointSize

/-- `VectorPointTable::at(index)`: throws `std::out_of_range` when
`index >= size()`, otherwise returns a `PointRef` handle bound to `index`
(the handle is modelled by the index it is bound to).  The C++ `throw`
leaves the table untouched; the embedding is a pure function of `t`, so
non-mutation is inherent. -/
def VectorPointTable.at (t : VectorPointTable) (index : Nat) :
    Except String Nat :=
  if t.size ≤ index then
    Except.error "Invalid index to VectorPointTable::at"
  else
    Except.ok index

/-- `VectorPointTable::getPoint(index)`: the raw address
`m_data.data() + index * m_pointSize`, modelled as the byte offset. -/
def VectorPointTable.getPoint (t : VectorPointTable) (index : Nat) : Nat :=
  index * t.pointSize

/-- The record content a `getPoint(index)` address exposes: the
`pointSize` bytes of the buffer starting at `index * pointSize`. -/
def VectorPointTable.record (t : VectorPointTable) (index : Nat) : List Nat :=
  (t.data.drop (index * t.pointSize)).take t.pointSize

/-- `VectorPointTable::acquire()`: `std::move(m_data)` — the buffer is
handed out and the table's own buffer is left moved-from (empty);
`m_size` and `m_skips` are untouched. -/
def VectorPointTable.acquire (t : VectorPointTable) :
    List Nat × VectorPointTable :=
  (t.data, { t with data := [] })

/-- `VectorPointTable::setNumPoints(s)` (the protocol's logical-size hook):
`m_size = s` and nothing else — in particular `m_skips` is not resized. -/
def VectorPointTable.setNumPoints (t : VectorPointTable) (s : Nat) :
    VectorPointTable :=
  { t with size := s }

/-- `VectorPointTable::setSkip(n)`: `m_skips.at(n) = true`; `vector::at`
throws (`none`) when `n` is out of the mask's range. -/
def VectorPointTable.setSkip (t : VectorPointTable) (n : Nat) :
    Option VectorPointTable :=
  if n < t.skips.length then some { t with skips := t.skips.set n true }
  else none

/-- `VectorPointTable::skip(n)`: `m_skips.at(n)`; `none` models the
`vector::at` throw on an out-of-range index. -/
def VectorPointTable.skip (t : VectorPointTable) (n : Nat) : Option Bool :=
  t.skips[n]?

/-! ### Skip-aware iterator

The iterator is its `m_index` field; the owning table is passed
explicitly.  Both the constructor and `operator++` run the scan loop
`while (m_index < m_table.size() && m_table.skip(m_index)) ++m_index;`.
The loop performs exactly `size - index` tests at most, so it is written
with that fuel; the fuel pattern `fuel + 1` encodes `index < size`.
`skips.getD i false` equals the `m_skips.at(i)` read whenever the mask
covers index `i`; the iterator claims below assume the well-formedness
`skips.length = size` under which `vector::at` never throws on the
indices the loop visits. -/

/-- The scan loop body with fuel `sz - i`: advance `i` while the slot at
`i` is skipped (the fuel being positive encodes `i < sz`). -/
def scanSkipGo (sk : List Bool) : Nat → Nat → Nat
  | 0, i => i
  | fuel + 1, i => if sk.getD i false then scanSkipGo sk fuel (i + 1) else i

/-- The scan loop: smallest index `j ≥ i` with `j = sz` or slot `j` not
skipped. -/
def scanSkip (sk : List Bool) (sz i : Nat) : Nat :=
  scanSkipGo sk (sz - i) i

/-- The `Iterator(table, index)` constructor: scan forward from `index`
past skipped slots. -/
def VectorPointTable.iterInit (t : VectorPointTable) (index : Nat) : Nat :=
  scanSkip t.skips t.size index

/-- `Iterator::operator++` (pre-increment): `++m_index` once, then scan
past skipped slots. -/
def VectorPointTable.iterInc (t : VectorPointTable) (i : Nat) : Nat :=
  scanSkip t.skips t.size (i + 1)

/-- `Iterator::operator++(int)` (post-increment) as written in the source:
copy `*this`, pre-increment the copy, return the copy; `*this` is not
modified.  The result is `(state of *this after the call, returned
iterator)`. -/
def VectorPointTable.iterPostInc (t : VectorPointTable) (i : Nat) :
    Nat × Nat :=
  let other := i
  let other2 := t.iterInc other
  (i, other2)

/-- `VectorPointTable::begin()`: `Iterator(*this)`, i.e. scan from 0. -/
def VectorPointTable.iterBegin (t : VectorPointTable) : Nat :=
  t.iterInit 0

/-- `VectorPointTable::end()`: `Iterator(*this, size())`. -/
def VectorPointTable.iterEnd (t : VectorPointTable) : Nat :=
  t.iterInit t.size

/-- The indices yielded by the canonical loop
`for (auto it = begin(); it != end(); ++it)` starting from iterator
position `i`: yield `i` while `i ≠ size` (positions reachable from
`begin()` never exceed `size`, so `it != end()` is `i < sz`), then
advance.  Each step moves the position up by at least one, so `sz` fuel
suffices from any start position. -/
def iterSeqGo (sk : List Bool) (sz : Nat) : Nat → Nat → List Nat
  | 0, _ => []
  | fuel + 1, i =>
    if i < sz then i :: iterSeqGo sk sz fuel (scanSkip sk sz (i + 1))
    else []

/-- All indices yielded by iterating the table from `begin()` to
`end()`. -/
def VectorPointTable.iterIndices (t : VectorPointTable) : List Nat :=
  iterSeqGo t.skips t.size t.size t.iterBegin

/-- Invariant claimed for the streaming table: the skip mask covers
exactly the logical size, and the buffer length is a whole number of
points. -/
abbrev TableInv (t : VectorPointTable) : Prop :=
  t.skips.length = t.size ∧ t.data.length % t.pointSize = 0

/-- The streaming-table operations a claim quantifies over.  `setSkip`
models the bounds-checked mutation (the `vector::at` throw leaves the
table unchanged); `acquire` keeps the post-transfer table. -/
inductive TableOp where
  | resize : Nat → TableOp
  | assign : List Nat → TableOp
  | setSkip : Nat → TableOp
  | setNumPoints : Nat → TableOp
  | acquire : TableOp
deriving DecidableEq, Repr

/-- Apply one table operation; a throwing `setSkip` leaves the state as
it was. -/
def applyOp (t : VectorPointTable) : TableOp → VectorPointTable
  | .resize np => t.resize np
  | .assign d => t.assign d
  | .setSkip n => (t.setSkip n).getD t
  | .setNumPoints s => t.setNumPoints s
  | .acquire => t.acquire.2

/-- Operations under which the invariant is actually preserved by the
code: anything except the unchecked logical-size hook, and `assign` only
with a whole number of points. -/
def goodOp (ps : Nat) : TableOp → Bool
  | .assign d => d.length % ps = 0
  | .setNumPoints _ => false
  | _ => true

/-! ## Arithmetic helpers -/

lemma succ_mod_div_of_eq {k m : Nat} (hk : 0 < k) (h : m % k + 1 = k) :
    (m + 1) % k = 0 ∧ (m + 1) / k = m / k + 1 := by
  have key : m + 1 = k * (m / k) + (m % k + 1) := by
    have := Nat.div_add_mod m k
    omega
  constructor
  · rw [key, Nat.mul_add_mod, h, Nat.mod_self]
  · rw [key, Nat.mul_add_div hk, h, Nat.div_self hk]

lemma succ_mod_div_of_ne {k m : Nat} (hk : 0 < k) (h : m % k + 1 ≠ k) :
    (m + 1) % k = m % k + 1 ∧ (m + 1) / k = m / k := by
  have hlt : m % k < k := Nat.mod_lt _ hk
  have hlt2 : m % k + 1 < k := by omega
  have key : m + 1 = k * (m / k) + (m % k + 1) := by
    have := Nat.div_add_mod m k
    omega
  constructor
  · rw [key, Nat.mul_add_mod, Nat.mod_eq_of_lt hlt2]
  · rw [key, Nat.mul_add_div hk, Nat.div_eq_of_lt hlt2, Nat.add_zero]

/-! ## MemBlock: closed form of the arena state -/

lemma next_blockStateAfter (ps k : Nat) (hps : 0 < ps) (hk : 0 < k)
    (n : Nat) :
    (blockStateAfter ps k n).next
      = (blockAddr k ps n, blockStateAfter ps k (n + 1)) := by
  cases n with
  | zero =>
    simp [blockStateAfter, MemBlock.next, mkMemBlock, MemBlock.bytesPerBlock,
      blockAddr, List.range_succ, Nat.zero_div, Nat.zero_mod]
  | succ m =>
    have hm1 : m + 1 ≠ 0 := Nat.succ_ne_zero m
    have hm2 : m + 2 ≠ 0 := Nat.succ_ne_zero (m + 1)
    rw [blockStateAfter, if_neg hm1, blockStateAfter, if_neg hm2]
    simp only [Nat.add_sub_cancel]
    by_cases h : m % k + 1 = k
    · obtain ⟨hmod, hdiv⟩ := succ_mod_div_of_eq hk h
      have hcond : (m % k + 1) * ps = k * ps := by rw [h]
      rw [MemBlock.next]
      simp only [hcond, if_pos rfl, MemBlock.bytesPerBlock]
      simp [blockAddr, hmod, hdiv, List.range_succ, Nat.add_sub_cancel]
    · obtain ⟨hmod, hdiv⟩ := succ_mod_div_of_ne hk h
      have hcond : (m % k + 1) * ps ≠ k * ps := by
        intro hc
        exact h (Nat.eq_of_mul_eq_mul_right hps hc)
      rw [MemBlock.next]
      simp only [if_neg hcond]
      simp [blockAddr, hmod, hdiv, List.range_succ, List.map_append,
        Nat.add_sub_cancel, Nat.succ_mul, Prod.mk.injEq, MemBlock.mk.injEq]

lemma run_eq_blockStateAfter (ps k : Nat) (hps : 0 < ps) (hk : 0 < k) :
    ∀ n, MemBlock.run (mkMemBlock ps k) n = blockStateAfter ps k n := by
  intro n
  induction n with
  | zero => simp [MemBlock.run, blockStateAfter]
  | succ n ih =>
    rw [MemBlock.run, ih, next_blockStateAfter ps k hps hk n]

lemma blockAddr_injective {k ps : Nat} (hps : 0 < ps) :
    Function.Injective (blockAddr k ps) := by
  intro a b hab
  rw [blockAddr, blockAddr, Prod.mk.injEq] at hab
  obtain ⟨hdiv, hmul⟩ := hab
  have hmod : a % k = b % k := Nat.eq_of_mul_eq_mul_right hps hmul
  calc a = k * (a / k) + a % k := (Nat.div_add_mod a k).symm
    _ = k * (b / k) + b % k := by rw [hdiv, hmod]
    _ = b := Nat.div_add_mod b k

lemma run_numBlocks (ps k : Nat) (hps : 0 < ps) (hk : 0 < k) (c : Nat) :
    (MemBlock.run (mkMemBlock ps k) (c + 1)).numBlocks
      = (MemBlock.run (mkMemBlock ps k) c).numBlocks
        + (if c % k = 0 then 1 else 0) := by
  rw [run_eq_blockStateAfter ps k hps hk, run_eq_blockStateAfter ps k hps hk]
  cases c with
  | zero =>
    simp [blockStateAfter, mkMemBlock, Nat.zero_mod, Nat.zero_div]
  | succ m =>
    have hm1 : m + 1 ≠ 0 := Nat.succ_ne_zero m
    have hm2 : m + 1 + 1 ≠ 0 := Nat.succ_ne_zero (m + 1)
    rw [blockStateAfter, if_neg hm2, blockStateAfter, if_neg hm1]
    simp only [Nat.add_sub_cancel]
    by_cases h : m % k + 1 = k
    · obtain ⟨hmod, hdiv⟩ := succ_mod_div_of_eq hk h
      rw [if_pos hmod, hdiv]
    · obtain ⟨hmod, hdiv⟩ := succ_mod_div_of_ne hk h
      have hne : (m + 1) % k ≠ 0 := by omega
      rw [if_neg hne, hdiv]

/-- Claim C4: on a fresh block arena with point size `ps ≥ 1` and block
capacity `k ≥ 1`, after any sequence of `n` calls to `next()` the arena's
`size()` equals `n`, the issued addresses (`m_refs`, which records exactly
the values returned by `next()`) are pairwise distinct, and a new block is
allocated exactly on the calls numbered `1, k+1, 2k+1, …` — i.e. call
number `c+1` allocates a block iff `c % k = 0`, so a boundary is crossed
exactly every `k` calls. -/
theorem C4_block_arena (ps k n : Nat) (hps : 1 ≤ ps) (hk : 1 ≤ k) :
    (MemBlock.run (mkMemBlock ps k) n).size = n
    ∧ (MemBlock.run (mkMemBlock ps k) n).refs.Nodup
    ∧ (∀ c, c < n →
        (MemBlock.run (mkMemBlock ps k) (c + 1)).numBlocks
          = (MemBlock.run (mkMemBlock ps k) c).numBlocks
            + (if c % k = 0 then 1 else 0)) := by
  refine ⟨?_, ?_, fun c _ => run_numBlocks ps k hps hk c⟩
  · rw [run_eq_blockStateAfter ps k hps hk]
    cases n with
    | zero => rfl
    | succ m =>
      rw [blockStateAfter, if_neg (Nat.succ_ne_zero m)]
      simp [MemBlock.size]
  · rw [run_eq_blockStateAfter ps k hps hk]
    cases n with
    | zero => exact List.nodup_nil
    | succ m =>
      rw [blockStateAfter, if_neg (Nat.succ_ne_zero m)]
      exact (List.nodup_range (m + 1)).map (blockAddr_injective hps)

/-- Witness for C4 at `ps = 2`, `k = 3`, `n = 7`: the hypotheses and the
bound on the sampled call are discharged at concrete values. -/
theorem C4_block_arena_witness :
    (MemBlock.run (mkMemBlock 2 3) 7).size = 7
    ∧ (MemBlock.run (mkMemBlock 2 3) 7).refs.Nodup
    ∧ (MemBlock.run (mkMemBlock 2 3) 4).numBlocks
        = (MemBlock.run (mkMemBlock 2 3) 3).numBlocks
          + (if 3 % 3 = 0 then 1 else 0) :=
  ⟨(C4_block_arena 2 3 7 (by decide) (by decide)).1,
   (C4_block_arena 2 3 7 (by decide) (by decide)).2.1,
   (C4_block_arena 2 3 7 (by decide) (by decide)).2.2 3 (by decide)⟩

/-- Claim C5: a `BlockPointTable` built from arenas `a` and `b` has
`size() = a.size() + b.size()`, `getPoint(i) = a.refs()[i]` for
`i < a.size()`, and `getPoint(i) = b.refs()[i - a.size()]` for
`a.size() ≤ i < a.size() + b.size()`. -/
theorem C5_block_point_table (a b : MemBlock) :
    (mkBlockPointTable a b).size = a.size + b.size
    ∧ (∀ i, i < a.size →
        (mkBlockPointTable a b).getPoint i = a.refs[i]?)
    ∧ (∀ i, a.size ≤ i → i < a.size + b.size →
        (mkBlockPointTable a b).getPoint i = b.refs[i - a.size]?) := by
  refine ⟨?_, fun i hi => ?_, fun i hi _ => ?_⟩
  · simp [mkBlockPointTable, BlockPointTable.size, MemBlock.size]
  · have hi2 : i < a.refs.length := hi
    rw [BlockPointTable.getPoint, mkBlockPointTable, List.getElem?_append]
    rw [if_pos hi2]
  · have hi2 : a.refs.length ≤ i := hi
    rw [BlockPointTable.getPoint, mkBlockPointTable,
      List.getElem?_append_right hi2, MemBlock.size]

/-- Witness for C5 on two concretely grown arenas (sizes 3 and 2), hitting
both the `i < a.size()` and the `i ≥ a.size()` branches. -/
theorem C5_block_point_table_witness :
    (mkBlockPointTable (MemBlock.run (mkMemBlock 2 2) 3)
        (MemBlock.run (mkMemBlock 4 3) 2)).getPoint 1
      = (MemBlock.run (mkMemBlock 2 2) 3).refs[1]?
    ∧ (mkBlockPointTable (MemBlock.run (mkMemBlock 2 2) 3)
        (MemBlock.run (mkMemBlock 4 3) 2)).getPoint 4
      = (MemBlock.run (mkMemBlock 4 3) 2).refs[4 - (MemBlock.run
          (mkMemBlock 2 2) 3).size]? :=
  ⟨(C5_block_point_table (MemBlock.run (mkMemBlock 2 2) 3)
      (MemBlock.run (mkMemBlock 4 3) 2)).2.1 1 (by decide),
   (C5_block_point_table (MemBlock.run (mkMemBlock 2 2) 3)
      (MemBlock.run (mkMemBlock 4 3) 2)).2.2 4 (by decide) (by decide)⟩

/-! ## Skip-scan loop lemmas -/

lemma le_scanSkipGo (sk : List Bool) :
    ∀ fuel i, i ≤ scanSkipGo sk fuel i := by
  intro fuel
  induction fuel with
  | zero => intro i; exact Nat.le_refl i
  | succ fuel ih =>
    intro i
    rw [scanSkipGo]
    split
    · exact Nat.le_trans (Nat.le_succ i) (ih (i + 1))
    · exact Nat.le_refl i

lemma scanSkipGo_le (sk : List Bool) :
    ∀ fuel i, scanSkipGo sk fuel i ≤ i + fuel := by
  intro fuel
  induction fuel with
  | zero => intro i; exact Nat.le_refl i
  | succ fuel ih =>
    intro i
    rw [scanSkipGo]
    split
    · have := ih (i + 1)
      omega
    · omega

lemma scanSkipGo_skipped (sk : List Bool) :
    ∀ fuel i j, i ≤ j → j < scanSkipGo sk fuel i →
      sk.getD j false = true := by
  intro fuel
  induction fuel with
  | zero =>
    intro i j hij hlt
    rw [scanSkipGo] at hlt
    omega
  | succ fuel ih =>
    intro i j hij hlt
    rw [scanSkipGo] at hlt
    by_cases hsk : sk.getD i false = true
    · rw [if_pos hsk] at hlt
      rcases Nat.eq_or_lt_of_le hij with heq | hlt2
      · exact heq ▸ hsk
      · exact ih (i + 1) j hlt2 hlt
    · rw [if_neg hsk] at hlt
      omega

lemma scanSkipGo_stop (sk : List Bool) :
    ∀ fuel i, scanSkipGo sk fuel i < i + fuel →
      sk.getD (scanSkipGo sk fuel i) false = false := by
  intro fuel
  induction fuel with
  | zero =>
    intro i hlt
    rw [scanSkipGo] at hlt
    omega
  | succ fuel ih =>
    intro i hlt
    rw [scanSkipGo] at hlt ⊢
    by_cases hsk : sk.getD i false = true
    · rw [if_pos hsk] at hlt ⊢
      exact ih (i + 1) (by omega)
    · rw [if_neg hsk] at hlt ⊢
      exact Bool.not_eq_true _ ▸ hsk

lemma le_scanSkip (sk : List Bool) (sz i : Nat) : i ≤ scanSkip sk sz i :=
  le_scanSkipGo sk (sz - i) i

lemma scanSkip_le (sk : List Bool) {sz i : Nat} (h : i ≤ sz) :
    scanSkip sk sz i ≤ sz := by
  have := scanSkipGo_le sk (sz - i) i
  rw [scanSkip]
  omega

lemma scanSkip_skipped (sk : List Bool) {sz i j : Nat} (hij : i ≤ j)
    (hlt : j < scanSkip sk sz i) : sk.getD j false = true :=
  scanSkipGo_skipped sk (sz - i) i j hij hlt

lemma scanSkip_stop (sk : List Bool) {sz i : Nat}
    (hlt : scanSkip sk sz i < sz) :
    sk.getD (scanSkip sk sz i) false = false := by
  rcases Nat.le_total i sz with hle | hgt
  · have hfuel : i + (sz - i) = sz := by omega
    exact scanSkipGo_stop sk (sz - i) i (by rw [scanSkip] at hlt; omega)
  · have hi : i ≤ scanSkip sk sz i := le_scanSkip sk sz i
    omega

lemma iterSeqGo_nil (sk : List Bool) (sz : Nat) (fuel i : Nat)
    (h : ¬ i < sz) : iterSeqGo sk sz fuel i = [] := by
  cases fuel with
  | zero => rfl
  | succ fuel => rw [iterSeqGo, if_neg h]

lemma iterSeqGo_unskipped (sk : List Bool) (sz : Nat) :
    ∀ fuel i, (i < sz → sk.getD i false = false) →
      ∀ j ∈ iterSeqGo sk sz fuel i, sk.getD j false = false := by
  intro fuel
  induction fuel with
  | zero =>
    intro i _ j hj
    rw [iterSeqGo] at hj
    exact absurd hj (List.not_mem_nil j)
  | succ fuel ih =>
    intro i hstop j hj
    rw [iterSeqGo] at hj
    by_cases hi : i < sz
    · rw [if_pos hi] at hj
      rcases List.mem_cons.mp hj with heq | hmem
      · rw [heq]
        exact hstop hi
      · exact ih (scanSkip sk sz (i + 1))
          (fun h => scanSkip_stop sk h) j hmem
    · rw [if_neg hi] at hj
      exact absurd hj (List.not_mem_nil j)

lemma iterEnd_eq (t : VectorPointTable) : t.iterEnd = t.size := by
  rw [VectorPointTable.iterEnd, VectorPointTable.iterInit, scanSkip,
    Nat.sub_self]
  rfl

/-- Claim C6: on a well-formed streaming table (mask covering the logical
size), if `setSkip(i)` succeeds then iterating from `begin()` to `end()`
never yields `i`; the iterator produced by `begin()` sits at the first
unskipped index (everything before it is skipped, and the position itself
is unskipped unless it is `size`); and when every index is skipped the
iteration yields no elements and `begin()` already equals the terminal
`end()` iterator. -/
theorem C6_skip_iteration (t t2 : VectorPointTable) (i : Nat)
    (hwf : t.skips.length = t.size) (hset : t.setSkip i = some t2) :
    i ∉ t2.iterIndices
    ∧ t.iterBegin ≤ t.size
    ∧ (∀ j, j < t.iterBegin → t.skip j = some true)
    ∧ (t.iterBegin < t.size → t.skip t.iterBegin = some false)
    ∧ ((∀ j, j < t.size → t.skip j = some true) →
        t.iterIndices = [] ∧ t.iterBegin = t.size
          ∧ t.iterBegin = t.iterEnd) := by
  rw [VectorPointTable.setSkip] at hset
  by_cases hi : i < t.skips.length
  swap
  · rw [if_neg hi] at hset
    exact absurd hset (Option.some_ne_none t2).symm
  rw [if_pos hi] at hset
  have ht2 : t2 = { t with skips := t.skips.set i true } :=
    (Option.some_injective _ hset).symm
  have hbegin : t.iterBegin ≤ t.size :=
    scanSkip_le t.skips (Nat.zero_le t.size)
  refine ⟨?_, hbegin, ?_, ?_, ?_⟩
  · intro hmem
    have hfalse : (t.skips.set i true).getD i false = false := by
      have := iterSeqGo_unskipped t2.skips t2.size t2.size t2.iterBegin
        (fun h => scanSkip_stop t2.skips h) i hmem
      rw [ht2] at this
      exact this
    have htrue : (t.skips.set i true).getD i false = true := by
      rw [List.getD_eq_getElem _ false (by simpa using hi),
        List.getElem_set_self]
    rw [hfalse] at htrue
    exact Bool.false_ne_true htrue
  · intro j hj
    have hsk : t.skips.getD j false = true :=
      scanSkip_skipped t.skips (Nat.zero_le j) hj
    have hjlen : j < t.skips.length := by
      have := le_scanSkip t.skips t.size 0
      omega
    rw [VectorPointTable.skip, List.getElem?_eq_getElem hjlen,
      ← List.getD_eq_getElem _ false hjlen, hsk]
  · intro hlt
    have hsk : t.skips.getD t.iterBegin false = false :=
      scanSkip_stop t.skips hlt
    have hblen : t.iterBegin < t.skips.length := by omega
    rw [VectorPointTable.skip, List.getElem?_eq_getElem hblen,
      ← List.getD_eq_getElem _ false hblen, hsk]
  · intro hall
    have hallD : ∀ j, j < t.size → t.skips.getD j false = true := by
      intro j hj
      have hjlen : j < t.skips.length := by omega
      have := hall j hj
      rw [VectorPointTable.skip, List.getElem?_eq_getElem hjlen] at this
      rw [List.getD_eq_getElem _ false hjlen]
      exact Option.some_injective _ this
    have hb : t.iterBegin = t.size := by
      rcases Nat.eq_or_lt_of_le hbegin with heq | hlt
      · exact heq
      · have h1 : t.skips.getD t.iterBegin false = false :=
          scanSkip_stop t.skips hlt
        have h2 := hallD t.iterBegin hlt
        rw [h1] at h2
        exact absurd h2 Bool.false_ne_true
    refine ⟨?_, hb, hb.trans (iterEnd_eq t).symm⟩
    rw [VectorPointTable.iterIndices, hb]
    exact iterSeqGo_nil t.skips t.size t.size t.size (Nat.lt_irrefl t.size)

/-- Witness for C6 on a concrete 4-point table with `setSkip(1)` and, for
the all-skipped branch, a mask with both entries skipped. -/
theorem C6_skip_iteration_witness :
    1 ∉ (VectorPointTable.mk 8 (List.replicate 32 0) 4
          [false, true, false, false]).iterIndices
    ∧ (VectorPointTable.mk 8 (List.replicate 16 0) 2
          [true, true]).iterIndices = [] := by
  constructor
  · exact (C6_skip_iteration
      (VectorPointTable.mk 8 (List.replicate 32 0) 4
        [false, false, false, false])
      (VectorPointTable.mk 8 (List.replicate 32 0) 4
        [false, true, false, false])
      1 (by decide) (by decide)).1
  · exact ((C6_skip_iteration
      (VectorPointTable.mk 8 (List.replicate 16 0) 2 [true, true])
      (VectorPointTable.mk 8 (List.replicate 16 0) 2 [true, true])
      0 (by decide) (by decide)).2.2.2.2 (by decide)).1

/-- Claim C10: the post-increment operator returns a copy advanced past
the current position (the same position the pre-increment `operator++`
would reach, hence strictly beyond the current index) and leaves the
iterator it was applied to unchanged — it does not return the
pre-increment value. -/
theorem C10_post_increment (t : VectorPointTable) (i : Nat) :
    (t.iterPostInc i).1 = i
    ∧ (t.iterPostInc i).2 = t.iterInc i
    ∧ i < (t.iterPostInc i).2 := by
  refine ⟨rfl, rfl, ?_⟩
  have := le_scanSkip t.skips t.size (i + 1)
  rw [VectorPointTable.iterPostInc, VectorPointTable.iterInc]
  omega

/-! ## vector::resize lemmas -/

lemma vecResize_length (l : List α) (n : Nat) (v : α) :
    (vecResize l n v).length = n := by
  rw [vecResize, List.length_append, List.length_take,
    List.length_replicate]
  omega

lemma vecResize_grow (l : List α) (n : Nat) (v : α) (h : l.length ≤ n) :
    vecResize l n v = l ++ List.replicate (n - l.length) v := by
  rw [vecResize, List.take_of_length_le h]

lemma vecResize_shrink (l : List α) (n : Nat) (v : α) (h : n ≤ l.length) :
    vecResize l n v = l.take n := by
  have h0 : n - l.length = 0 := by omega
  rw [vecResize, h0, List.replicate_zero, List.append_nil]

/-! ## Streaming-table theorems -/

/-- Counterexample to claim C1: with `pointSize = 16`, assigning a
17-byte buffer does not fail with the invalid-buffer-length condition —
`assign` has no such check — and the table is not left unchanged: the
operation completes, adopting the 17-byte buffer and truncating the
logical size to `17 / 16 = 1`. -/
theorem C1_counterexample :
    ((mkTableCapacity 16 4).assign (List.replicate 17 0)).size = 1
    ∧ ((mkTableCapacity 16 4).assign (List.replicate 17 0)).data.length = 17
    ∧ (mkTableCapacity 16 4).assign (List.replicate 17 0)
        ≠ mkTableCapacity 16 4 := by
  decide

/-- Claim C1 as amended: adopting at construction fails with the
invalid-buffer-length error exactly when the byte length is not a
multiple of `pointSize`, and on a multiple it succeeds with logical size
`length / pointSize`; `assign`, however, never fails: it always adopts
the buffer and sets the logical size to the truncating quotient
`length / pointSize`. -/
theorem C1_validation (ps : Nat) (data : List Nat) (t : VectorPointTable) :
    (data.length % ps ≠ 0 →
      mkTableAdopt ps data = Except.error "Invalid VectorPointTable data")
    ∧ (data.length % ps = 0 →
      (mkTableAdopt ps data).map (fun t0 => (t0.size, t0.data))
        = Except.ok (data.length / ps, data))
    ∧ (t.assign data).size = data.length / t.pointSize
    ∧ (t.assign data).data = data := by
  refine ⟨fun h => ?_, fun h => ?_, rfl, rfl⟩
  · rw [mkTableAdopt, if_pos h]
  · rw [mkTableAdopt, if_neg (fun hc => hc h)]
    rfl

/-- Witness for C1 (amended): a 17-byte buffer with `pointSize = 16` is
rejected by the adopting constructor, and a 32-byte one is accepted with
size 2. -/
theorem C1_validation_witness :
    mkTableAdopt 16 (List.replicate 17 0)
      = Except.error "Invalid VectorPointTable data"
    ∧ (mkTableAdopt 16 (List.replicate 32 0)).map
        (fun t0 => (t0.size, t0.data))
      = Except.ok ((List.replicate 32 (0 : Nat)).length / 16,
          List.replicate 32 0) :=
  ⟨(C1_validation 16 (List.replicate 17 0) (mkTableCapacity 16 4)).1
      (by decide),
   (C1_validation 16 (List.replicate 32 0) (mkTableCapacity 16 4)).2.1
      (by decide)⟩

/-- Counterexample to claim C2: the logical-size hook `setNumPoints` sets
`m_size` without touching `m_skips`, so after `setNumPoints(2)` on a
4-point table the skip-mask length (4) no longer equals the logical size
(2) — the claimed invariant fails after that operation. -/
theorem C2_counterexample :
    ¬ TableInv ((mkTableCapacity 8 4).setNumPoints 2) := by
  decide

lemma applyOp_pointSize (t : VectorPointTable) (op : TableOp) :
    (applyOp t op).pointSize = t.pointSize := by
  cases op with
  | resize np => rfl
  | assign d => rfl
  | setSkip n =>
    rw [applyOp, VectorPointTable.setSkip]
    by_cases h : n < t.skips.length
    · rw [if_pos h]
      rfl
    · rw [if_neg h]
      rfl
  | setNumPoints s => rfl
  | acquire => rfl

lemma applyOp_inv (t : VectorPointTable) (op : TableOp)
    (hinv : TableInv t) (hgood : goodOp t.pointSize op = true) :
    TableInv (applyOp t op) := by
  obtain ⟨h1, h2⟩ := hinv
  cases op with
  | resize np =>
    refine ⟨?_, ?_⟩
    · show (vecResize t.skips np false).length = np
      exact vecResize_length t.skips np false
    · show (vecResize t.data (np * t.pointSize) 0).length % t.pointSize = 0
      rw [vecResize_length, Nat.mul_mod_left]
  | assign d =>
    have hg : d.length % t.pointSize = 0 := by
      rw [goodOp, decide_eq_true_eq] at hgood
      exact hgood
    refine ⟨?_, hg⟩
    show (vecResize t.skips (d.length / t.pointSize) false).length
      = d.length / t.pointSize
    exact vecResize_length t.skips (d.length / t.pointSize) false
  | setSkip n =>
    rw [applyOp, VectorPointTable.setSkip]
    by_cases h : n < t.skips.length
    · rw [if_pos h]
      refine ⟨?_, h2⟩
      show (t.skips.set n true).length = t.size
      rw [List.length_set]
      exact h1
    · rw [if_neg h]
      exact ⟨h1, h2⟩
  | setNumPoints s =>
    rw [goodOp] at hgood
    exact absurd hgood (Bool.false_ne_true)
  | acquire =>
    exact ⟨h1, Nat.zero_mod t.pointSize⟩

lemma foldl_applyOp_inv :
    ∀ (ops : List TableOp) (t : VectorPointTable), TableInv t →
      (∀ op ∈ ops, goodOp t.pointSize op = true) →
      TableInv (List.foldl applyOp t ops) := by
  intro ops
  induction ops with
  | nil => intro t h _; exact h
  | cons op ops ih =>
    intro t hinv hgood
    rw [List.foldl_cons]
    apply ih
    · exact applyOp_inv t op hinv (hgood op (List.mem_cons_self op ops))
    · intro op2 hop2
      rw [applyOp_pointSize]
      exact hgood op2 (List.mem_cons_of_mem op hop2)

/-- Claim C2 as amended: the invariant
"skip-mask length = logical size, and buffer length is a multiple of
`pointSize`" holds after both constructors and is preserved by every
sequence of `resize`, `setSkip`, `acquire`, and `assign`-with-a-multiple-
length-buffer operations.  It is not preserved by `setNumPoints` (which
changes only the logical size, see the counterexample) nor by `assign`
with a non-multiple buffer length (which keeps the buffer as given), so
those operations are excluded by `goodOp`. -/
theorem C2_invariant (ps np : Nat) (d : List Nat)
    (t0 t : VectorPointTable) (ops : List TableOp) :
    TableInv (mkTableCapacity ps np)
    ∧ (mkTableAdopt ps d = Except.ok t0 → TableInv t0)
    ∧ (TableInv t → (∀ op ∈ ops, goodOp t.pointSize op = true) →
        TableInv (List.foldl applyOp t ops)) := by
  refine ⟨⟨?_, ?_⟩, fun h => ?_, fun hinv hgood =>
    foldl_applyOp_inv ops t hinv hgood⟩
  · show (List.replicate np false).length = np
    exact List.length_replicate np false
  · show (List.replicate (np * ps) (0 : Nat)).length % ps = 0
    rw [List.length_replicate, Nat.mul_mod_left]
  · rw [mkTableAdopt] at h
    by_cases hc : d.length % ps ≠ 0
    · rw [if_pos hc] at h
      exact Except.noConfusion h
    · rw [if_neg hc] at h
      have ht0 := Except.ok.inj h
      rw [← ht0]
      exact ⟨List.length_replicate _ false, not_not.mp hc⟩

/-- Witness for C2 (amended): the invariant holds for a concrete
construction and after a concrete sequence of good operations. -/
theorem C2_invariant_witness :
    TableInv (mkTableCapacity 8 4)
    ∧ TableInv (List.foldl applyOp (mkTableCapacity 8 4)
        [TableOp.resize 3, TableOp.setSkip 1,
         TableOp.assign (List.replicate 16 2), TableOp.acquire]) :=
  ⟨(C2_invariant 8 4 [] (mkTableCapacity 8 4) (mkTableCapacity 8 4) []).1,
   (C2_invariant 8 4 [] (mkTableCapacity 8 4) (mkTableCapacity 8 4)
      [TableOp.resize 3, TableOp.setSkip 1,
       TableOp.assign (List.replicate 16 2), TableOp.acquire]).2.2
      (by decide) (by decide)⟩

/-- Counterexample to claim C3: in the spec's example scenario
(`pointSize = 8`, 4 points, `setSkip(1)`, then `resize(2)`), the claim
says `at(1)` fails with out-of-range; in fact after the resize the
logical size is 2, so `at(1)` succeeds and returns the handle bound to
index 1. -/
theorem C3_counterexample :
    ((mkTableCapacity 8 4).setSkip 1).map (fun t => (t.resize 2).at 1)
      = some (Except.ok 1) := rfl

/-- Claim C3 as amended: in the example scenario the capacity is 4,
iteration after `setSkip(1)` yields `[0, 2, 3]` in order, and after
`resize(2)` the capacity is 2 — but `at(1)` succeeds (1 is still below
the logical size 2; index 1's skip flag is even retained by the mask
truncation), while it is `at(2)` that fails with the out-of-range
condition. -/
theorem C3_scenario :
    (mkTableCapacity 8 4).capacity = 4
    ∧ ((mkTableCapacity 8 4).setSkip 1).map (fun t => t.iterIndices)
        = some [0, 2, 3]
    ∧ ((mkTableCapacity 8 4).setSkip 1).map (fun t => (t.resize 2).capacity)
        = some 2
    ∧ ((mkTableCapacity 8 4).setSkip 1).map (fun t => (t.resize 2).at 1)
        = some (Except.ok 1)
    ∧ ((mkTableCapacity 8 4).setSkip 1).map (fun t => (t.resize 2).at 2)
        = some (Except.error "Invalid index to VectorPointTable::at")
    ∧ ((mkTableCapacity 8 4).setSkip 1).map
        (fun t => (t.resize 2).skips.getD 1 false) = some true :=
  ⟨rfl, rfl, rfl, rfl, rfl, rfl⟩

/-- Claim C7: on a table whose buffer and mask match its logical size,
growing via `resize` appends exactly `(n - m) * pointSize` zero bytes
(leaving the first `m * pointSize` bytes unchanged) and appends `n - m`
unskipped mask entries; shrinking truncates buffer and mask to their
first `m` entries, after which `at(m-1)` still succeeds and the record
content at index `m-1` is unchanged. -/
theorem C7_resize (t : VectorPointTable) (n : Nat)
    (hd : t.data.length = t.size * t.pointSize)
    (hs : t.skips.length = t.size) :
    (t.size ≤ n →
      (t.resize n).data
        = t.data ++ List.replicate ((n - t.size) * t.pointSize) 0
      ∧ (t.resize n).skips = t.skips ++ List.replicate (n - t.size) false)
    ∧ (n ≤ t.size →
      (t.resize n).data = t.data.take (n * t.pointSize)
      ∧ (t.resize n).skips = t.skips.take n
      ∧ (1 ≤ n →
          (t.resize n).record (n - 1) = t.record (n - 1)
          ∧ (t.resize n).at (n - 1) = Except.ok (n - 1))) := by
  constructor
  · intro hmn
    constructor
    · show vecResize t.data (n * t.pointSize) 0
        = t.data ++ List.replicate ((n - t.size) * t.pointSize) 0
      rw [vecResize_grow t.data (n * t.pointSize) 0
          (by rw [hd]; exact Nat.mul_le_mul_right t.pointSize hmn),
        hd, ← Nat.sub_mul]
    · show vecResize t.skips n false
        = t.skips ++ List.replicate (n - t.size) false
      rw [vecResize_grow t.skips n false (by omega), hs]
  · intro hnm
    have hdata : (t.resize n).data = t.data.take (n * t.pointSize) :=
      vecResize_shrink t.data (n * t.pointSize) 0
        (by rw [hd]; exact Nat.mul_le_mul_right t.pointSize hnm)
    refine ⟨hdata, ?_, fun h1 => ⟨?_, ?_⟩⟩
    · exact vecResize_shrink t.skips n false (by omega)
    · show ((t.resize n).data.drop ((n - 1) * t.pointSize)).take t.pointSize
        = (t.data.drop ((n - 1) * t.pointSize)).take t.pointSize
      rw [hdata, List.drop_take, ← Nat.sub_mul]
      have hsub : (n - (n - 1)) * t.pointSize = t.pointSize := by
        have : n - (n - 1) = 1 := by omega
        rw [this, Nat.one_mul]
      rw [hsub, List.take_take, Nat.min_self]
    · show (if (t.resize n).size ≤ n - 1 then
          Except.error "Invalid index to VectorPointTable::at"
        else Except.ok (n - 1)) = Except.ok (n - 1)
      have hlt : ¬ (t.resize n).size ≤ n - 1 := by
        show ¬ n ≤ n - 1
        omega
      rw [if_neg hlt]

/-- Witness for C7 on a 3-point table with `pointSize = 2`, grown to 5
and shrunk to 2. -/
theorem C7_resize_witness :
    ((mkTableCapacity 2 3).resize 5).skips
      = (mkTableCapacity 2 3).skips
        ++ List.replicate (5 - (mkTableCapacity 2 3).size) false
    ∧ ((mkTableCapacity 2 3).resize 2).at (2 - 1) = Except.ok (2 - 1) :=
  ⟨((C7_resize (mkTableCapacity 2 3) 5 (by decide) (by decide)).1
      (by decide)).2,
   (((C7_resize (mkTableCapacity 2 3) 2 (by decide) (by decide)).2
      (by decide)).2.2 (by decide)).2⟩

/-- Claim C8: `at(index)` fails (with the out-of-range error) exactly
when `index ≥ size`; in particular `at(size)` fails, and for `size ≥ 1`
`at(size - 1)` succeeds with the handle bound to that index.  The C++
`throw` happens before any state is touched, and the embedding of `at`
is a pure function of the table, so failure cannot mutate the table. -/
theorem C8_at_bounds (t : VectorPointTable) (index : Nat) :
    ((∃ msg, t.at index = Except.error msg) ↔ t.size ≤ index)
    ∧ (index < t.size → t.at index = Except.ok index)
    ∧ (∃ msg, t.at t.size = Except.error msg)
    ∧ (1 ≤ t.size → t.at (t.size - 1) = Except.ok (t.size - 1)) := by
  refine ⟨⟨?_, fun h => ?_⟩, fun h => ?_, ?_, fun h => ?_⟩
  · rintro ⟨msg, hmsg⟩
    rw [VectorPointTable.at] at hmsg
    by_cases h : t.size ≤ index
    · exact h
    · rw [if_neg h] at hmsg
      exact Except.noConfusion hmsg
  · exact ⟨"Invalid index to VectorPointTable::at",
      by rw [VectorPointTable.at, if_pos h]⟩
  · rw [VectorPointTable.at, if_neg (by omega)]
  · exact ⟨"Invalid index to VectorPointTable::at",
      by rw [VectorPointTable.at, if_pos (Nat.le_refl t.size)]⟩
  · rw [VectorPointTable.at, if_neg (by omega)]

/-- Witness for C8 on a 3-point table: index 2 succeeds and `size - 1`
succeeds. -/
theorem C8_at_bounds_witness :
    (mkTableCapacity 4 3).at 2 = Except.ok 2
    ∧ (mkTableCapacity 4 3).at ((mkTableCapacity 4 3).size - 1)
        = Except.ok ((mkTableCapacity 4 3).size - 1) :=
  ⟨(C8_at_bounds (mkTableCapacity 4 3) 2).2.1 (by decide),
   (C8_at_bounds (mkTableCapacity 4 3) 2).2.2.2 (by decide)⟩

/-- Claim C9: adopting a buffer of length `n * pointSize` at construction
succeeds, and immediately calling `acquire()` hands back a buffer
bit-identical to the one adopted. -/
theorem C9_roundtrip (ps n : Nat) (data : List Nat)
    (h : data.length = n * ps) :
    (mkTableAdopt ps data).map (fun t => t.acquire.1) = Except.ok data := by
  have hmod : data.length % ps = 0 := by
    rw [h]
    exact Nat.mul_mod_left n ps
  rw [mkTableAdopt, if_neg (fun hc => hc hmod)]
  rfl

/-- Witness for C9: an 8-byte buffer with `pointSize = 4` round-trips. -/
theorem C9_roundtrip_witness :
    (mkTableAdopt 4 [1, 2, 3, 4, 5, 6, 7, 8]).map (fun t => t.acquire.1)
      = Except.ok [1, 2, 3, 4, 5, 6, 7, 8] :=
  C9_roundtrip 4 2 [1, 2, 3, 4, 5, 6, 7, 8] (by decide)

end Entwine
